import Mathlib

/-!
Shallow embedding of `experiments/data_embedding/instructor_embedding_instruction.py`
(the magicoder embedding-visualization experiment).

Modelling conventions:
- An embedding vector is a list of rationals (`Vec`); the embedding model
  (`model.encode`) is an external collaborator, passed in as an opaque function
  from the list of (instruction, text) pairs and the batch size to a list of
  vectors.
- A dataset row is an `Example` with the three text fields the script reads.
- Python `assert` failures and library `ValueError`s are modelled with
  `Except String`.
- `load_dataset` is an external collaborator, passed in as a function from a
  file path to the list of rows of that file.
-/

/-- One record of an input dataset: the fields read by the script. -/
structure Example where
  seed : String
  problem : String
  solution : String
deriving DecidableEq, Repr

/-- An embedding vector (numpy row), modelled exactly over the rationals. -/
abbrev Vec := List ℚ

/-- An (instruction, text) pair submitted to the embedding model. -/
abbrev Pair := String × String

/-- The opaque external embedding model: `model.encode(sentences, batch_size)`. -/
abbrev Model := List Pair → ℕ → List Vec

/-- Modelled from the spec: `SRC_INSTRUCT_ILLUSTRATION_PROMPT.format(problem=..., solution=...)`
from `magicoder.prompt_template`, which is not among the provided sources — the
spec describes it as a fixed-template string interpolating both problem and
solution. -/
def srcInstructIllustrationPrompt (problem solution : String) : String :=
  "Problem:\n" ++ problem ++ "\nSolution:\n" ++ solution

/-- `map_fn` of `get_dataset_embedding`: derives the `(instruction, text)` pair
for one example according to `embedding_mode`; the final `assert False` branch
is an error. -/
def map_fn (embedding_mode : String) (instruction : String) (ex : Example) :
    Except String Pair :=
  if embedding_mode = "seed" then
    .ok (instruction, ex.seed)
  else if embedding_mode = "problem" then
    .ok (instruction, ex.problem)
  else if embedding_mode = "solution" then
    .ok (instruction, ex.solution)
  else if embedding_mode = "problem-solution" then
    .ok (instruction, srcInstructIllustrationPrompt ex.problem ex.solution)
  else
    .error "AssertionError"

/-- `dataset.map(map_fn)`: applies a possibly-raising function to every row,
in order, propagating the first raised error. -/
def mapE (g : α → Except String β) : List α → Except String (List β)
  | [] => .ok []
  | x :: xs =>
    match g x with
    | .error e => .error e
    | .ok y =>
      match mapE g xs with
      | .error e => .error e
      | .ok ys => .ok (y :: ys)

/-- Body of `get_dataset_embedding`: derive one pair per row via `map_fn`
(`dataset.map`), then read the `pair` column (`dataset.to_dict()["pair"]`) and
call `model.encode` on it with the given batch size. On a zero-row dataset
`Dataset.map` never invokes `map_fn`, so the `pair` column is never added and
the column read raises a `KeyError` before any encode call. -/
def get_dataset_embedding (model : Model) (embedding_mode : String)
    (dataset : List Example) (instruction : String) (batch_size : ℕ) :
    Except String (List Vec) :=
  match mapE (map_fn embedding_mode instruction) dataset with
  | .error e => .error e
  | .ok [] => .error "KeyError: pair"
  | .ok pairs => .ok (model pairs batch_size)

/-- The `joblib.Memory` cache key of `get_dataset_embedding`:
`@MEM.cache(ignore=["model", "batch_size"])` keys on the remaining arguments
`(_model_name, embedding_mode, dataset, instruction)` only. -/
structure CacheKey where
  modelName : String
  embeddingMode : String
  dataset : List Example
  instruction : String
deriving DecidableEq, Repr

/-- The persistent on-disk cache, modelled as an association list. -/
abbrev Cache := List (CacheKey × List Vec)

/-- Cache lookup by key. -/
def cacheLookup : Cache → CacheKey → Option (List Vec)
  | [], _ => none
  | (k, v) :: rest, key => if k = key then some v else cacheLookup rest key

/-- The `MEM.cache`-wrapped `get_dataset_embedding`: on a hit for the key
`(_model_name, embedding_mode, dataset, instruction)` the stored matrix is
returned without calling the model; on a miss the body runs and the result is
stored. `model` and `batch_size` are in `ignore` and take no part in the key. -/
def get_dataset_embedding_cached (cache : Cache) (model : Model)
    (modelName : String) (embedding_mode : String) (dataset : List Example)
    (instruction : String) (batch_size : ℕ) :
    Except String (List Vec × Cache) :=
  let key : CacheKey := ⟨modelName, embedding_mode, dataset, instruction⟩
  match cacheLookup cache key with
  | some v => .ok (v, cache)
  | none =>
    match get_dataset_embedding model embedding_mode dataset instruction batch_size with
    | .error e => .error e
    | .ok v => .ok (v, (key, v) :: cache)

/-- The per-file loop body of `get_dataset_embeddings`: loads each file and
embeds it, collecting the per-file (dataset, embeddings) pairs in file order. -/
def gatherFiles (load : String → List Example) (model : Model)
    (embedding_mode instruction : String) (batch_size : ℕ) :
    List String → Except String (List (List Example × List Vec))
  | [] => .ok []
  | f :: fs =>
    match get_dataset_embedding model embedding_mode (load f) instruction batch_size with
    | .error e => .error e
    | .ok emb =>
      match gatherFiles load model embedding_mode instruction batch_size fs with
      | .error e => .error e
      | .ok rest => .ok ((load f, emb) :: rest)

/-- `get_dataset_embeddings`: loop over the data files, then
`concatenate_datasets` / `np.concatenate` (both of which raise on an empty list
of parts). -/
def get_dataset_embeddings (load : String → List Example) (model : Model)
    (data_files : List String) (embedding_mode instruction : String)
    (batch_size : ℕ) : Except String (List Example × List Vec) :=
  match gatherFiles load model embedding_mode instruction batch_size data_files with
  | .error e => .error e
  | .ok [] => .error "ValueError: need at least one array to concatenate"
  | .ok parts => .ok ((parts.map Prod.fst).flatten, (parts.map Prod.snd).flatten)

/-- The configuration surface of the script (`Args` dataclass). `model_key` and
`embedding_mode` are runtime strings (Python `Literal` hints are not enforced). -/
structure Args where
  data_files : List String
  instruction : String
  model_key : String
  embedding_mode : String
  queries : List String := []
  query_instruction : Option String := none
  batch_size : ℕ := 32
  n_clusters : Option ℕ := none
deriving DecidableEq, Repr

/-- The grouping strategy selected in `main`. -/
inductive Method where
  | cluster
  | query
deriving DecidableEq, Repr

/-- The configuration validation at the top of `main` (lines 93-99):
`assert len(args.queries) or args.n_clusters is not None`, then
`method = "cluster" if len(args.queries) == 0 else "query"`, then the
per-method assertion on `query_instruction` resp. `n_clusters`. -/
def checkConfig (args : Args) : Except String Method :=
  if args.queries.length ≠ 0 ∨ args.n_clusters ≠ none then
    if args.queries.length = 0 then
      match args.n_clusters with
      | some _ => .ok Method.cluster
      | none => .error "AssertionError: args.n_clusters is not None"
    else
      match args.query_instruction with
      | some _ => .ok Method.query
      | none => .error "AssertionError: args.query_instruction is not None"
  else
    .error "AssertionError: len(args.queries) or args.n_clusters is not None"

/-- `np.max` over a list (`None` on the empty list, where numpy raises). -/
def listMax [LinearOrder α] : List α → Option α
  | [] => none
  | x :: xs =>
    some (match listMax xs with
      | none => x
      | some m => max x m)

/-- `np.min` over a list (`None` on the empty list, where numpy raises). -/
def listMin [LinearOrder α] : List α → Option α
  | [] => none
  | x :: xs =>
    some (match listMin xs with
      | none => x
      | some m => min x m)

/-- The label-range assertions that guard visualization in both branches of
`main` (`assert labels.max() == n - 1` then `assert labels.min() == 0`); numpy
raises `ValueError` before either assertion when `labels` is empty.
Comparisons are over ℤ, as Python integers. -/
def checkLabelRange (labels : List ℕ) (n : ℕ) : Except String Unit :=
  match listMax labels, listMin labels with
  | some mx, some mn =>
    if (mx : ℤ) = (n : ℤ) - 1 then
      if mn = 0 then .ok ()
      else .error "AssertionError: labels.min() == 0"
    else .error "AssertionError: labels.max() == n - 1"
  | _, _ => .error "ValueError: zero-size array to reduction operation"

/-- Dot product of two vectors (`zipWith` matches numpy broadcasting on equal
shapes; the script only ever compares vectors of one model's fixed width). -/
def dotQ (a b : Vec) : ℚ := (List.zipWith (fun x y => x * y) a b).sum

/-- Euclidean norm of a vector. -/
noncomputable def vecNorm (a : Vec) : ℝ := Real.sqrt ((dotQ a a : ℚ) : ℝ)

/-- `sentence_transformers.util.cos_sim` for one pair of vectors: the dot
product divided by the product of the norms (division by a zero norm yields 0,
matching the eps-clamped normalization for the zero vector). -/
noncomputable def cos_sim (a b : Vec) : ℝ :=
  ((dotQ a b : ℚ) : ℝ) / (vecNorm a * vecNorm b)

/-- `np.argmax`: index of the first occurrence of the maximum value; 0 on the
empty list (where numpy raises, but the script never reaches that case). -/
def argmax [LinearOrder α] : List α → ℕ
  | [] => 0
  | x :: xs =>
    match listMax xs with
    | none => 0
    | some m => if x < m then argmax xs + 1 else 0

/-- `get_label` (closure over `query_embeddings` in the query branch of
`main`): the first index of the query embedding with maximal cosine similarity
to the given item embedding. -/
noncomputable def get_label (query_embeddings : List Vec) (embedding : Vec) : ℕ :=
  argmax (query_embeddings.map (cos_sim embedding))

/-- The label array of the query branch:
`np.array([get_label(embedding) for embedding in embeddings])`. -/
noncomputable def queryLabels (query_embeddings : List Vec) (embeddings : List Vec) :
    List ℕ :=
  embeddings.map (get_label query_embeddings)

/-- `main` after argument parsing, up to the data handed to visualization:
configuration validation, pipeline, grouping (clustering via the opaque
deterministic `kmeans` collaborator, or nearest-query via `get_label`), and the
label-range assertions. Returns the method, the labels and the group count. -/
noncomputable def runMain (load : String → List Example) (model : Model)
    (kmeans : List Vec → ℕ → List ℕ) (args : Args) :
    Except String (Method × List ℕ × ℕ) :=
  match checkConfig args with
  | .error e => .error e
  | .ok method =>
    match get_dataset_embeddings load model args.data_files
        args.embedding_mode args.instruction args.batch_size with
    | .error e => .error e
    | .ok (_, embeddings) =>
      match method with
      | Method.cluster =>
        match args.n_clusters with
        | none => .error "AssertionError: args.n_clusters is not None"
        | some n =>
          match checkLabelRange (kmeans embeddings n) n with
          | .error e => .error e
          | .ok _ => .ok (Method.cluster, kmeans embeddings n, n)
      | Method.query =>
        let queryPairs := args.queries.map (fun q => (args.query_instruction.getD "", q))
        let query_embeddings := model queryPairs args.batch_size
        let labels := queryLabels query_embeddings embeddings
        match checkLabelRange labels args.queries.length with
        | .error e => .error e
        | .ok _ => .ok (Method.query, labels, args.queries.length)

/-- `np.mean` of a list of rationals. -/
def mean (l : List ℚ) : ℚ := l.sum / (l.length : ℚ)

/-- `np.where(labels == label)[0]`: the indices at which the label occurs, in
increasing order. -/
def whereEq (labels : List ℕ) (label : ℕ) : List ℕ :=
  (List.range labels.length).filter (fun i => labels.getD i 0 = label)

/-- One plotted series of the visualization loop: the scatter points of one
label, the legend string, and the extra `marker="x"` centroid point plotted in
the same iteration. -/
structure PlotSeries where
  points : List (ℚ × ℚ)
  legend : String
  marker : ℚ × ℚ
deriving DecidableEq, Repr

/-- The visualization loop of `main` (lines 138-148): for each label in
`range(n_clusters)`, scatter the 2D points at that label's indices with the
resolved legend string, and additionally scatter one centroid marker at
`(xs.mean(), ys.mean())` computed from the full point set. `vis_dims` is the 2D
projection returned by the opaque TSNE collaborator. -/
def buildPlot (method : Method) (queriesArg : List String) (labels : List ℕ)
    (n_clusters : ℕ) (vis_dims : List (ℚ × ℚ)) : List PlotSeries :=
  let xs := vis_dims.map Prod.fst
  let ys := vis_dims.map Prod.snd
  (List.range n_clusters).map (fun label =>
    { points := (whereEq labels label).map (fun i => (xs.getD i 0, ys.getD i 0))
      legend := if method = Method.cluster then "Cluster " ++ toString (label + 1)
                else queriesArg.getD label ""
      marker := (mean xs, mean ys) })


/-- A concrete dataset row used by the concrete witnesses below. -/
def exA : Example := ⟨"s", "p", "sol"⟩

lemma listMax_eq_none_iff [LinearOrder α] (l : List α) :
    listMax l = none ↔ l = [] := by
  cases l <;> simp [listMax]

lemma listMax_mem [LinearOrder α] {l : List α} {m : α}
    (h : listMax l = some m) : m ∈ l := by
  induction l generalizing m with
  | nil => simp [listMax] at h
  | cons x xs ih =>
    rw [listMax] at h
    cases hx : listMax xs with
    | none =>
      rw [hx] at h
      simp at h
      simp [h]
    | some m' =>
      rw [hx] at h
      simp at h
      rcases max_choice x m' with hc | hc
      · rw [hc] at h
        simp [h]
      · rw [hc] at h
        subst h
        exact List.mem_cons_of_mem x (ih hx)

lemma le_listMax [LinearOrder α] {l : List α} {m a : α}
    (h : listMax l = some m) (ha : a ∈ l) : a ≤ m := by
  induction l generalizing m with
  | nil => simp at ha
  | cons x xs ih =>
    rw [listMax] at h
    cases hx : listMax xs with
    | none =>
      have hxs : xs = [] := (listMax_eq_none_iff xs).mp hx
      subst hxs
      rw [listMax] at h
      simp at h
      simp at ha
      rw [ha, h]
    | some m' =>
      rw [hx] at h
      simp at h
      rcases List.mem_cons.mp ha with rfl | hmem
      · rw [← h]
        exact le_max_left _ _
      · rw [← h]
        exact le_trans (ih hx hmem) (le_max_right _ _)

lemma listMin_eq_none_iff [LinearOrder α] (l : List α) :
    listMin l = none ↔ l = [] := by
  cases l <;> simp [listMin]

lemma listMin_mem [LinearOrder α] {l : List α} {m : α}
    (h : listMin l = some m) : m ∈ l := by
  induction l generalizing m with
  | nil => simp [listMin] at h
  | cons x xs ih =>
    rw [listMin] at h
    cases hx : listMin xs with
    | none =>
      rw [hx] at h
      simp at h
      simp [h]
    | some m' =>
      rw [hx] at h
      simp at h
      rcases min_choice x m' with hc | hc
      · rw [hc] at h
        simp [h]
      · rw [hc] at h
        subst h
        exact List.mem_cons_of_mem x (ih hx)

lemma listMin_le [LinearOrder α] {l : List α} {m a : α}
    (h : listMin l = some m) (ha : a ∈ l) : m ≤ a := by
  induction l generalizing m with
  | nil => simp at ha
  | cons x xs ih =>
    rw [listMin] at h
    cases hx : listMin xs with
    | none =>
      have hxs : xs = [] := (listMin_eq_none_iff xs).mp hx
      subst hxs
      rw [listMin] at h
      simp at h
      simp at ha
      rw [ha, h]
    | some m' =>
      rw [hx] at h
      simp at h
      rcases List.mem_cons.mp ha with rfl | hmem
      · rw [← h]
        exact min_le_left _ _
      · rw [← h]
        exact le_trans (min_le_right _ _) (ih hx hmem)

lemma checkLabelRange_eq_ok_iff (labels : List ℕ) (n : ℕ) :
    checkLabelRange labels n = .ok () ↔
      labels ≠ [] ∧ 0 ∈ labels ∧ (∃ l ∈ labels, (l : ℤ) = (n : ℤ) - 1) ∧
        ∀ l ∈ labels, (l : ℤ) ≤ (n : ℤ) - 1 := by
  constructor
  · intro h
    unfold checkLabelRange at h
    cases hmx : listMax labels with
    | none =>
      rw [hmx] at h
      cases hmn : listMin labels <;> rw [hmn] at h <;> simp at h
    | some mx =>
      rw [hmx] at h
      cases hmn : listMin labels with
      | none => rw [hmn] at h; simp at h
      | some mn =>
        rw [hmn] at h
        dsimp only at h
        by_cases hx : (mx : ℤ) = (n : ℤ) - 1
        · rw [if_pos hx] at h
          by_cases hn0 : mn = 0
          · refine ⟨?_, ?_, ⟨mx, listMax_mem hmx, hx⟩, ?_⟩
            · intro hnil
              rw [hnil, listMax] at hmx
              cases hmx
            · rw [← hn0]
              exact listMin_mem hmn
            · intro l hl
              have := le_listMax hmx hl
              omega
          · rw [if_neg hn0] at h
            cases h
        · rw [if_neg hx] at h
          cases h
  · rintro ⟨hne, h0, ⟨l0, hl0mem, hl0⟩, hub⟩
    unfold checkLabelRange
    cases hmx : listMax labels with
    | none => exact absurd ((listMax_eq_none_iff labels).mp hmx) hne
    | some mx =>
      cases hmn : listMin labels with
      | none => exact absurd ((listMin_eq_none_iff labels).mp hmn) hne
      | some mn =>
        have hmx1 : (mx : ℤ) = (n : ℤ) - 1 := by
          have h1 := hub mx (listMax_mem hmx)
          have h2 := le_listMax hmx hl0mem
          omega
        have hmn0 : mn = 0 := by
          have := listMin_le hmn h0
          omega
        dsimp only
        rw [if_pos hmx1, if_pos hmn0]

lemma runMain_ok_label_check (load : String → List Example) (model : Model)
    (kmeans : List Vec → ℕ → List ℕ) (args : Args) (m : Method)
    (labels : List ℕ) (n : ℕ)
    (h : runMain load model kmeans args = .ok (m, labels, n)) :
    checkLabelRange labels n = .ok () := by
  unfold runMain at h
  split at h
  · exact Except.noConfusion h
  · split at h
    · exact Except.noConfusion h
    · split at h
      · split at h
        · exact Except.noConfusion h
        · split at h
          · exact Except.noConfusion h
          · injection h with h1
            simp only [Prod.mk.injEq] at h1
            obtain ⟨rfl, rfl, rfl⟩ := h1
            rename_i heq
            exact heq
      · dsimp only at h
        split at h
        · exact Except.noConfusion h
        · injection h with h1
          simp only [Prod.mk.injEq] at h1
          obtain ⟨rfl, rfl, rfl⟩ := h1
          rename_i heq
          exact heq

/-- C3 (counterexample): the label-range assertions of `main` are only a
min/max check. The labels `[0, 2, 2]` with `n = 3` pass `checkLabelRange`
although the label `1 ∈ [0, 3)` is assigned to no item, so a labelling that
does not densely cover `[0, n)` can still proceed to visualization — the
claimed hard failure does not happen for interior gaps. -/
theorem label_check_misses_gap :
    checkLabelRange [0, 2, 2] 3 = .ok () ∧ (1 : ℕ) < 3 ∧
      (1 : ℕ) ∉ ([0, 2, 2] : List ℕ) :=
  ⟨by rfl, by decide, by decide⟩

/-- C3 (amended): in both grouping strategies, any run that reaches the
visualization stage (`runMain` returns `ok`) has passed the two assertions
`labels.max() == n - 1` and `labels.min() == 0`: the label array is nonempty,
label `0` occurs, a label equal to `n - 1` occurs, and every label is at most
`n - 1`; a violation of this min/max condition aborts the run. The check does
not detect interior gaps in `[0, n)` (see the counterexample). -/
theorem label_check_minmax (load : String → List Example) (model : Model)
    (kmeans : List Vec → ℕ → List ℕ) (args : Args) (m : Method)
    (labels : List ℕ) (n : ℕ)
    (h : runMain load model kmeans args = .ok (m, labels, n)) :
    labels ≠ [] ∧ 0 ∈ labels ∧ (∃ l ∈ labels, (l : ℤ) = (n : ℤ) - 1) ∧
      ∀ l ∈ labels, (l : ℤ) ≤ (n : ℤ) - 1 :=
  (checkLabelRange_eq_ok_iff labels n).mp
    (runMain_ok_label_check load model kmeans args m labels n h)

/-- Witness for the amended C3 theorem at a concrete clustering run. -/
theorem label_check_minmax_witness :
    ([0] : List ℕ) ≠ [] ∧ 0 ∈ ([0] : List ℕ) ∧
      (∃ l ∈ ([0] : List ℕ), (l : ℤ) = (1 : ℤ) - 1) ∧
      ∀ l ∈ ([0] : List ℕ), (l : ℤ) ≤ (1 : ℤ) - 1 :=
  label_check_minmax (fun _ => [exA]) (fun ps _ => ps.map fun _ => [1])
    (fun emb _ => emb.map fun _ => 0)
    { data_files := ["f"], instruction := "emb", model_key := "instructor-large",
      embedding_mode := "seed", queries := [], query_instruction := none,
      batch_size := 32, n_clusters := some 1 }
    Method.cluster [0] 1 (by rfl)

/-- C4 (counterexample): supplying both a non-empty queries list and a cluster
count does not raise a configuration error — `checkConfig` accepts it and
selects the nearest-query strategy (`n_clusters` is silently ignored). -/
theorem both_strategies_accepted :
    checkConfig
      { data_files := ["f"], instruction := "i",
        model_key := "instructor-large", embedding_mode := "seed",
        queries := ["q"], query_instruction := some "qi", batch_size := 32,
        n_clusters := some 3 } = .ok Method.query := by rfl

/-- C4 (amended): supplying neither queries nor a cluster count (and likewise
a missing query instruction with queries present) raises a configuration error
before any embedding work; supplying both is accepted, with the nearest-query
strategy taking precedence and the cluster count playing no part in
validation. -/
theorem checkConfig_characterization (args : Args) :
    (checkConfig args = .ok Method.query ↔
      args.queries ≠ [] ∧ args.query_instruction ≠ none) ∧
    (checkConfig args = .ok Method.cluster ↔
      args.queries = [] ∧ args.n_clusters ≠ none) ∧
    ((∃ e, checkConfig args = .error e) ↔
      (args.queries = [] ∧ args.n_clusters = none) ∨
        (args.queries ≠ [] ∧ args.query_instruction = none)) := by
  obtain ⟨df, instr, mk, em, qs, qi, bs, nc⟩ := args
  rcases qs with _ | ⟨q, qs⟩ <;> rcases qi with _ | qi <;> rcases nc with _ | n <;>
    simp [checkConfig]

/-- C10: with an empty queries list and a cluster count, the configuration is
accepted (clustering is selected) no matter what `query_instruction` is, and
the whole post-parse run is independent of `query_instruction`: the clustering
branch never reads it. -/
theorem query_instruction_ignored_when_clustering
    (load : String → List Example) (model : Model)
    (kmeans : List Vec → ℕ → List ℕ) (args : Args) (n : ℕ)
    (hq : args.queries = []) (hn : args.n_clusters = some n) :
    checkConfig args = .ok Method.cluster ∧
      ∀ qi, runMain load model kmeans { args with query_instruction := qi } =
        runMain load model kmeans args := by
  have hcc : ∀ qi : Option String,
      checkConfig { args with query_instruction := qi } = .ok Method.cluster := by
    intro qi
    simp [checkConfig, hq, hn]
  constructor
  · simp [checkConfig, hq, hn]
  · intro qi
    unfold runMain
    rw [hcc qi]
    rw [show checkConfig args = .ok Method.cluster by simp [checkConfig, hq, hn]]

/-- Witness for C10 at a concrete clustering configuration carrying a
spurious query instruction. -/
theorem query_instruction_ignored_when_clustering_witness :
    checkConfig
      { data_files := ["f"], instruction := "emb", model_key := "instructor-large",
        embedding_mode := "seed", queries := [], query_instruction := some "extra",
        batch_size := 32, n_clusters := some 1 } = .ok Method.cluster ∧
    ∀ qi, runMain (fun _ => [exA]) (fun ps _ => ps.map fun _ => [1])
        (fun emb _ => emb.map fun _ => 0)
        { data_files := ["f"], instruction := "emb", model_key := "instructor-large",
          embedding_mode := "seed", queries := [], query_instruction := qi,
          batch_size := 32, n_clusters := some 1 } =
      runMain (fun _ => [exA]) (fun ps _ => ps.map fun _ => [1])
        (fun emb _ => emb.map fun _ => 0)
        { data_files := ["f"], instruction := "emb", model_key := "instructor-large",
          embedding_mode := "seed", queries := [], query_instruction := some "extra",
          batch_size := 32, n_clusters := some 1 } :=
  query_instruction_ignored_when_clustering (fun _ => [exA])
    (fun ps _ => ps.map fun _ => [1]) (fun emb _ => emb.map fun _ => 0)
    { data_files := ["f"], instruction := "emb", model_key := "instructor-large",
      embedding_mode := "seed", queries := [], query_instruction := some "extra",
      batch_size := 32, n_clusters := some 1 } 1 rfl rfl

/-- C2: the `joblib` cache keys `get_dataset_embedding` on
`(_model_name, embedding_mode, dataset, instruction)` only — `model` and
`batch_size` are in the `ignore` list. Hence once a call with a given key has
produced a matrix, any later call with the same model identity string,
embedding mode, dataset and instruction returns the bit-identical stored
matrix and leaves the cache unchanged, for every batch size and every model
handle. -/
theorem cache_ignores_batch_and_model (cache : Cache) (model1 model2 : Model)
    (b1 b2 : ℕ) (modelName embedding_mode instruction : String)
    (dataset : List Example) (v : List Vec) (cache1 : Cache)
    (h : get_dataset_embedding_cached cache model1 modelName embedding_mode
      dataset instruction b1 = .ok (v, cache1)) :
    get_dataset_embedding_cached cache1 model2 modelName embedding_mode
      dataset instruction b2 = .ok (v, cache1) := by
  unfold get_dataset_embedding_cached at h ⊢
  dsimp only at h ⊢
  cases hc : cacheLookup cache ⟨modelName, embedding_mode, dataset, instruction⟩ with
  | some w =>
    rw [hc] at h
    injection h with h1
    simp only [Prod.mk.injEq] at h1
    obtain ⟨rfl, rfl⟩ := h1
    rw [hc]
  | none =>
    rw [hc] at h
    cases hg : get_dataset_embedding model1 embedding_mode dataset instruction b1 with
    | error e =>
      rw [hg] at h
      exact Except.noConfusion h
    | ok w =>
      rw [hg] at h
      injection h with h1
      simp only [Prod.mk.injEq] at h1
      rw [← h1.2, ← h1.1]
      simp [cacheLookup]

/-- Witness for C2: a concrete first call (batch size 32, a model returning the
empty matrix) fills the cache; a second call with batch size 7 and a
different model handle returns the stored matrix unchanged. -/
theorem cache_ignores_batch_and_model_witness :
    get_dataset_embedding_cached
      [(⟨"instructor-large", "seed", [exA], "emb"⟩, [])]
      (fun ps _ => ps.map fun _ => [1]) "instructor-large" "seed" [exA] "emb" 7 =
      .ok ([], [(⟨"instructor-large", "seed", [exA], "emb"⟩, [])]) :=
  cache_ignores_batch_and_model [] (fun _ _ => []) (fun ps _ => ps.map fun _ => [1])
    32 7 "instructor-large" "seed" "emb" [exA] []
    [(⟨"instructor-large", "seed", [exA], "emb"⟩, [])] (by rfl)

/-- C6: for every embedding mode outside
`{seed, problem, solution, problem-solution}`, the text-derivation step raises
a fatal error before the encode call, for every model, dataset, instruction
and batch size: `assert False` inside `map_fn` fires on any dataset with a
row, and on a zero-row dataset (where `Dataset.map` never runs `map_fn`) the
read of the missing `pair` column raises a `KeyError` — still inside the
derivation step, before `model.encode`. No default mode is substituted and no
model output ever appears. -/
theorem bogus_mode_raises (model : Model) (embedding_mode : String)
    (dataset : List Example) (instruction : String) (batch_size : ℕ)
    (hm : embedding_mode ∉ ["seed", "problem", "solution", "problem-solution"]) :
    ∃ e, get_dataset_embedding model embedding_mode dataset instruction
      batch_size = .error e := by
  cases dataset with
  | nil => exact ⟨"KeyError: pair", by rfl⟩
  | cons x xs =>
    have hfn : map_fn embedding_mode instruction x = .error "AssertionError" := by
      simp only [List.mem_cons, List.not_mem_nil, or_false, not_or] at hm
      obtain ⟨h1, h2, h3, h4⟩ := hm
      unfold map_fn
      rw [if_neg h1, if_neg h2, if_neg h3, if_neg h4]
    refine ⟨"AssertionError", ?_⟩
    unfold get_dataset_embedding mapE
    rw [hfn]

/-- Witness for C6: mode `"bogus"` on a one-row dataset. -/
theorem bogus_mode_raises_witness :
    ∃ e, get_dataset_embedding (fun ps _ => ps.map fun _ => [1]) "bogus" [exA]
      "emb" 32 = .error e :=
  bogus_mode_raises (fun ps _ => ps.map fun _ => [1]) "bogus" [exA] "emb" 32
    (by decide)

/-- C8: the visualization loop plots, for each of the `n_clusters` labels,
exactly one extra centroid marker, and every one of them sits at the mean of
the entire 2D point set (`xs.mean()`, `ys.mean()`), not at the centroid of the
label's own subset — so all the centroid markers coincide. -/
theorem centroid_markers_global_mean (method : Method) (queriesArg : List String)
    (labels : List ℕ) (n_clusters : ℕ) (vis_dims : List (ℚ × ℚ)) :
    (buildPlot method queriesArg labels n_clusters vis_dims).map PlotSeries.marker =
      List.replicate n_clusters
        (mean (vis_dims.map Prod.fst), mean (vis_dims.map Prod.snd)) := by
  apply List.eq_replicate_iff.mpr
  constructor
  · simp [buildPlot]
  · intro b hb
    simp only [buildPlot, List.mem_map, List.mem_range] at hb
    obtain ⟨s, ⟨label, hlt, rfl⟩, rfl⟩ := hb
    rfl

lemma mapE_ok_length {g : α → Except String β} {l : List α} {r : List β}
    (h : mapE g l = .ok r) : r.length = l.length := by
  induction l generalizing r with
  | nil =>
    rw [mapE] at h
    injection h with h1
    subst h1
    rfl
  | cons x xs ih =>
    rw [mapE] at h
    cases hx : g x with
    | error e => rw [hx] at h; exact Except.noConfusion h
    | ok y =>
      rw [hx] at h
      cases hr : mapE g xs with
      | error e => rw [hr] at h; exact Except.noConfusion h
      | ok ys =>
        rw [hr] at h
        injection h with h1
        subst h1
        simp [ih hr]

lemma mapE_ok_get {g : α → Except String β} {l : List α} {r : List β}
    (h : mapE g l = .ok r) :
    ∀ (i : ℕ) (a : α), l[i]? = some a → ∃ b, g a = .ok b ∧ r[i]? = some b := by
  induction l generalizing r with
  | nil => intro i a ha; simp at ha
  | cons x xs ih =>
    rw [mapE] at h
    cases hx : g x with
    | error e => rw [hx] at h; exact Except.noConfusion h
    | ok y =>
      rw [hx] at h
      cases hr : mapE g xs with
      | error e => rw [hr] at h; exact Except.noConfusion h
      | ok ys =>
        rw [hr] at h
        injection h with h1
        subst h1
        intro i a ha
        cases i with
        | zero =>
          simp at ha
          subst ha
          exact ⟨y, hx, by simp⟩
        | succ j =>
          simp only [List.getElem?_cons_succ] at ha ⊢
          exact ih hr j a ha

lemma mapE_append {g : α → Except String β} {l1 l2 : List α} {r1 r2 : List β}
    (h1 : mapE g l1 = .ok r1) (h2 : mapE g l2 = .ok r2) :
    mapE g (l1 ++ l2) = .ok (r1 ++ r2) := by
  induction l1 generalizing r1 with
  | nil =>
    rw [mapE] at h1
    injection h1 with h
    subst h
    simpa using h2
  | cons x xs ih =>
    rw [mapE] at h1
    cases hx : g x with
    | error e => rw [hx] at h1; exact Except.noConfusion h1
    | ok y =>
      rw [hx] at h1
      cases hr : mapE g xs with
      | error e => rw [hr] at h1; exact Except.noConfusion h1
      | ok ys =>
        rw [hr] at h1
        injection h1 with h
        subst h
        rw [List.cons_append, mapE, hx, ih hr]
        rfl

lemma get_dataset_embedding_ok_align {model : Model} {f : Pair → Vec}
    {embedding_mode instruction : String} {dsf : List Example} {b : ℕ}
    {embf : List Vec}
    (henc : ∀ ps bs, model ps bs = ps.map f)
    (h : get_dataset_embedding model embedding_mode dsf instruction b = .ok embf) :
    ∃ pairs, mapE (map_fn embedding_mode instruction) dsf = .ok pairs ∧
      embf = pairs.map f := by
  unfold get_dataset_embedding at h
  cases hp : mapE (map_fn embedding_mode instruction) dsf with
  | error e => rw [hp] at h; exact Except.noConfusion h
  | ok pairs =>
    rw [hp] at h
    cases pairs with
    | nil => exact Except.noConfusion h
    | cons p ps =>
      injection h with h1
      exact ⟨p :: ps, rfl, by rw [← h1, henc]⟩

lemma gatherFiles_ok_align {load : String → List Example} {model : Model}
    {f : Pair → Vec} {embedding_mode instruction : String} {b : ℕ}
    {files : List String} {parts : List (List Example × List Vec)}
    (henc : ∀ ps bs, model ps bs = ps.map f)
    (h : gatherFiles load model embedding_mode instruction b files = .ok parts) :
    ∃ pairs, mapE (map_fn embedding_mode instruction) ((parts.map Prod.fst).flatten) =
        .ok pairs ∧ (parts.map Prod.snd).flatten = pairs.map f := by
  induction files generalizing parts with
  | nil =>
    rw [gatherFiles] at h
    injection h with h1
    subst h1
    exact ⟨[], rfl, rfl⟩
  | cons file fs ih =>
    rw [gatherFiles] at h
    cases hg : get_dataset_embedding model embedding_mode (load file) instruction b with
    | error e => rw [hg] at h; exact Except.noConfusion h
    | ok emb =>
      rw [hg] at h
      cases hr : gatherFiles load model embedding_mode instruction b fs with
      | error e => rw [hr] at h; exact Except.noConfusion h
      | ok rest =>
        rw [hr] at h
        injection h with h1
        subst h1
        obtain ⟨pairs1, hp1, he1⟩ := get_dataset_embedding_ok_align henc hg
        obtain ⟨pairs2, hp2, he2⟩ := ih hr
        refine ⟨pairs1 ++ pairs2, ?_, ?_⟩
        · simpa using mapE_append hp1 hp2
        · simp [he1, he2]

/-- C1: for any list of data files, when the pipeline returns, the
concatenated embedding matrix has exactly as many rows as the concatenated
dataset, and row `i` of the matrix is the model's embedding of the
`(instruction, text)` pair derived from row `i` of the dataset — the external
model contract being that `encode` returns one vector per input pair, in input
order, for any batch size. -/
theorem pipeline_alignment (load : String → List Example) (model : Model)
    (f : Pair → Vec) (data_files : List String)
    (embedding_mode instruction : String) (b : ℕ)
    (ds : List Example) (emb : List Vec)
    (henc : ∀ ps bs, model ps bs = ps.map f)
    (hok : get_dataset_embeddings load model data_files embedding_mode
      instruction b = .ok (ds, emb)) :
    emb.length = ds.length ∧
      ∀ (i : ℕ) (ex : Example), ds[i]? = some ex →
        ∃ p, map_fn embedding_mode instruction ex = .ok p ∧ emb[i]? = some (f p) := by
  unfold get_dataset_embeddings at hok
  cases hg : gatherFiles load model embedding_mode instruction b data_files with
  | error e => rw [hg] at hok; exact Except.noConfusion hok
  | ok parts =>
    rw [hg] at hok
    cases parts with
    | nil => exact Except.noConfusion hok
    | cons part rest =>
      injection hok with h1
      simp only [Prod.mk.injEq] at h1
      obtain ⟨hds, hemb⟩ := h1
      obtain ⟨pairs, hp, he⟩ := gatherFiles_ok_align henc hg
      rw [hds] at hp
      constructor
      · rw [← hemb, he, List.length_map, mapE_ok_length hp]
      · intro i ex hex
        obtain ⟨p, hfn, hpi⟩ := mapE_ok_get hp i ex hex
        refine ⟨p, hfn, ?_⟩
        rw [← hemb, he]
        simp [hpi]

/-- Witness for C1 at a one-file, one-row dataset with a rowwise model. -/
theorem pipeline_alignment_witness :
    ([[1]] : List Vec).length = ([exA] : List Example).length ∧
      ∀ (i : ℕ) (ex : Example), ([exA] : List Example)[i]? = some ex →
        ∃ p, map_fn "seed" "emb" ex = .ok p ∧
          ([[1]] : List Vec)[i]? = some ((fun _ : Pair => ([1] : Vec)) p) :=
  pipeline_alignment (fun _ => [exA]) (fun ps _ => ps.map fun _ => [1])
    (fun _ => [1]) ["f"] "seed" "emb" 32 [exA] [[1]]
    (fun _ _ => rfl) (by rfl)

lemma map_fn_ok_of_valid {embedding_mode : String}
    (hm : embedding_mode ∈ ["seed", "problem", "solution", "problem-solution"])
    (instruction : String) (ex : Example) :
    ∃ p, map_fn embedding_mode instruction ex = .ok p := by
  simp only [List.mem_cons, List.not_mem_nil, or_false] at hm
  rcases hm with rfl | rfl | rfl | rfl
  · exact ⟨(instruction, ex.seed), rfl⟩
  · exact ⟨(instruction, ex.problem), rfl⟩
  · exact ⟨(instruction, ex.solution), rfl⟩
  · exact ⟨(instruction, srcInstructIllustrationPrompt ex.problem ex.solution), rfl⟩

lemma mapE_ok_of_valid {embedding_mode : String}
    (hm : embedding_mode ∈ ["seed", "problem", "solution", "problem-solution"])
    (instruction : String) (l : List Example) :
    ∃ pairs, mapE (map_fn embedding_mode instruction) l = .ok pairs := by
  induction l with
  | nil => exact ⟨[], rfl⟩
  | cons x xs ih =>
    obtain ⟨p, hp⟩ := map_fn_ok_of_valid hm instruction x
    obtain ⟨pairs, hps⟩ := ih
    exact ⟨p :: pairs, by rw [mapE, hp, hps]⟩

lemma gatherFiles_ok_of_valid (load : String → List Example) (model : Model)
    {embedding_mode : String} (instruction : String) (b : ℕ)
    (hm : embedding_mode ∈ ["seed", "problem", "solution", "problem-solution"])
    (files : List String) (hne : ∀ f ∈ files, load f ≠ []) :
    ∃ parts, gatherFiles load model embedding_mode instruction b files = .ok parts ∧
      parts.length = files.length := by
  induction files with
  | nil => exact ⟨[], rfl, rfl⟩
  | cons file fs ih =>
    obtain ⟨parts, hps, hlen⟩ := ih fun f hf => hne f (List.mem_cons_of_mem _ hf)
    obtain ⟨pairs, hpairs⟩ := mapE_ok_of_valid hm instruction (load file)
    have hd : load file ≠ [] := hne file (List.mem_cons_self _ _)
    have hplen : pairs.length = (load file).length := mapE_ok_length hpairs
    obtain ⟨p, ps, rfl⟩ : ∃ p ps, pairs = p :: ps := by
      cases hpc : pairs with
      | nil =>
        exfalso
        apply hd
        apply List.eq_nil_of_length_eq_zero
        rw [← hplen, hpc]
        rfl
      | cons p ps => exact ⟨p, ps, rfl⟩
    refine ⟨(load file, model (p :: ps) b) :: parts, ?_, by simp [hlen]⟩
    rw [gatherFiles]
    rw [show get_dataset_embedding model embedding_mode (load file) instruction b =
      .ok (model (p :: ps) b) by rw [get_dataset_embedding, hpairs]]
    rw [hps]

/-- C7 (counterexample): a model returning no rows at all flows through the
pipeline unchecked — `get_dataset_embeddings` returns a 1-row dataset paired
with a 0-row matrix instead of aborting on the mismatch. -/
theorem no_alignment_check_counterexample :
    get_dataset_embeddings (fun _ => [exA]) (fun _ _ => []) ["f"] "seed" "emb" 32 =
      .ok ([exA], []) ∧ ([exA] : List Example).length ≠ ([] : List Vec).length :=
  ⟨by rfl, by decide⟩

/-- C7 (amended): the pipeline performs no alignment re-verification after
concatenation: for every model — including one whose output rows do not match
the dataset — the run returns `ok` whenever the embedding mode is recognized
and every file loads at least one row, so a dataset/matrix length mismatch is
never caught. (A zero-row file aborts earlier, at the `pair`-column read, not
at any alignment check.) Alignment instead holds by construction when the
model honours its one-vector-per-input contract (C1's theorem). -/
theorem pipeline_no_length_check (load : String → List Example) (model : Model)
    (data_files : List String) (embedding_mode instruction : String) (b : ℕ)
    (hm : embedding_mode ∈ ["seed", "problem", "solution", "problem-solution"])
    (hf : data_files ≠ []) (hne : ∀ f ∈ data_files, load f ≠ []) :
    ∃ ds emb, get_dataset_embeddings load model data_files embedding_mode
      instruction b = .ok (ds, emb) := by
  obtain ⟨parts, hps, hlen⟩ :=
    gatherFiles_ok_of_valid load model instruction b hm data_files hne
  cases hparts : parts with
  | nil =>
    rw [hparts] at hlen
    cases hdf : data_files with
    | nil => exact absurd hdf hf
    | cons file fs => rw [hdf] at hlen; simp at hlen
  | cons part rest =>
    subst hparts
    refine ⟨((part :: rest).map Prod.fst).flatten, ((part :: rest).map Prod.snd).flatten, ?_⟩
    rw [get_dataset_embeddings, hps]

/-- Witness for the amended C7 theorem. -/
theorem pipeline_no_length_check_witness :
    ∃ ds emb, get_dataset_embeddings (fun _ => [exA]) (fun _ _ => [])
      ["f"] "seed" "emb" 32 = .ok (ds, emb) :=
  pipeline_no_length_check (fun _ => [exA]) (fun _ _ => []) ["f"] "seed" "emb" 32
    (by decide) (by decide) (by decide)

lemma getElem?_argmax [LinearOrder α] {l : List α} {m : α}
    (h : listMax l = some m) : l[argmax l]? = some m := by
  induction l generalizing m with
  | nil => rw [listMax] at h; exact Option.noConfusion h
  | cons x xs ih =>
    rw [listMax] at h
    rw [argmax]
    cases hm : listMax xs with
    | none =>
      rw [hm] at h
      simp only [Option.some.injEq] at h
      simp [h]
    | some m' =>
      rw [hm] at h
      simp only [Option.some.injEq] at h
      dsimp only
      by_cases hx : x < m'
      · rw [if_pos hx]
        rw [max_eq_right (le_of_lt hx)] at h
        subst h
        simp only [List.getElem?_cons_succ]
        exact ih hm
      · rw [if_neg hx]
        rw [max_eq_left (le_of_not_lt hx)] at h
        simp [h]

lemma lt_of_lt_argmax [LinearOrder α] {l : List α} {m : α}
    (h : listMax l = some m) :
    ∀ j, j < argmax l → ∀ v, l[j]? = some v → v < m := by
  induction l generalizing m with
  | nil => rw [listMax] at h; exact Option.noConfusion h
  | cons x xs ih =>
    intro j hj v hv
    rw [listMax] at h
    rw [argmax] at hj
    cases hm : listMax xs with
    | none =>
      rw [hm] at hj
      dsimp only at hj
      omega
    | some m' =>
      rw [hm] at hj
      dsimp only at hj
      rw [hm] at h
      simp only [Option.some.injEq] at h
      by_cases hx : x < m'
      · rw [if_pos hx] at hj
        rw [max_eq_right (le_of_lt hx)] at h
        subst h
        cases j with
        | zero =>
          simp only [List.getElem?_cons_zero, Option.some.injEq] at hv
          exact hv ▸ hx
        | succ k =>
          simp only [List.getElem?_cons_succ] at hv
          exact ih hm k (by omega) v hv
      · rw [if_neg hx] at hj
        omega

/-- C5: under the nearest-query strategy, `get_label` returns the index of a
query embedding attaining the maximal cosine similarity to the item embedding,
and every query at a strictly smaller index has strictly smaller similarity —
`np.argmax` first-max semantics, so ties resolve to the lowest index. -/
theorem nearest_query_first_max (query_embeddings : List Vec) (embedding : Vec)
    (h : query_embeddings ≠ []) :
    ∃ qL, query_embeddings[get_label query_embeddings embedding]? = some qL ∧
      (∀ (j : ℕ) (q : Vec), query_embeddings[j]? = some q →
        cos_sim embedding q ≤ cos_sim embedding qL) ∧
      ∀ (j : ℕ) (q : Vec), j < get_label query_embeddings embedding →
        query_embeddings[j]? = some q →
        cos_sim embedding q < cos_sim embedding qL := by
  obtain ⟨M, hM⟩ : ∃ M, listMax (query_embeddings.map (cos_sim embedding)) = some M := by
    cases hl : listMax (query_embeddings.map (cos_sim embedding)) with
    | none =>
      exfalso
      have hnil := (listMax_eq_none_iff _).mp hl
      rcases query_embeddings with _ | ⟨q, qs⟩
      · exact h rfl
      · simp at hnil
    | some M => exact ⟨M, rfl⟩
  have hL := getElem?_argmax hM
  unfold get_label
  rw [List.getElem?_map] at hL
  cases hqL : query_embeddings[argmax (query_embeddings.map (cos_sim embedding))]? with
  | none => rw [hqL] at hL; exact Option.noConfusion hL
  | some qL =>
    rw [hqL] at hL
    simp only [Option.map_some', Option.some.injEq] at hL
    refine ⟨qL, rfl, ?_, ?_⟩
    · intro j q hq
      have hmem : cos_sim embedding q ∈ query_embeddings.map (cos_sim embedding) :=
        List.mem_map_of_mem _ (List.getElem?_mem hq)
      rw [hL]
      exact le_listMax hM hmem
    · intro j q hj hq
      have hsim : (query_embeddings.map (cos_sim embedding))[j]? =
          some (cos_sim embedding q) := by
        rw [List.getElem?_map, hq]
        rfl
      rw [hL]
      exact lt_of_lt_argmax hM j hj (cos_sim embedding q) hsim

/-- Witness for C5 with two orthogonal unit queries and an item embedding
equal to the second query. -/
theorem nearest_query_first_max_witness :
    ∃ qL, ([[1, 0], [0, 1]] : List Vec)[get_label [[1, 0], [0, 1]] [0, 1]]? = some qL ∧
      (∀ (j : ℕ) (q : Vec), ([[1, 0], [0, 1]] : List Vec)[j]? = some q →
        cos_sim [0, 1] q ≤ cos_sim [0, 1] qL) ∧
      ∀ (j : ℕ) (q : Vec), j < get_label [[1, 0], [0, 1]] [0, 1] →
        ([[1, 0], [0, 1]] : List Vec)[j]? = some q →
        cos_sim [0, 1] q < cos_sim [0, 1] qL :=
  nearest_query_first_max [[1, 0], [0, 1]] [0, 1] (by decide)

/-- C9: under the nearest-query strategy, the label of item `i` is a function
of row `i` of the embedding matrix and the query embeddings only: two runs
whose matrices agree at row `i` assign item `i` the same label, whatever the
other rows contain. -/
theorem query_label_row_local (query_embeddings : List Vec) (e1 e2 : List Vec)
    (i : ℕ) (h : e1[i]? = e2[i]?) :
    (queryLabels query_embeddings e1)[i]? =
      (queryLabels query_embeddings e2)[i]? := by
  unfold queryLabels
  rw [List.getElem?_map, List.getElem?_map, h]

/-- Witness for C9: two embedding matrices differing in row 1 but agreeing in
row 0 give row 0 the same label. -/
theorem query_label_row_local_witness :
    (queryLabels [[1, 0], [0, 1]] [[1, 0], [2, 3]])[0]? =
      (queryLabels [[1, 0], [0, 1]] [[1, 0], [9, 9]])[0]? :=
  query_label_row_local [[1, 0], [0, 1]] [[1, 0], [2, 3]] [[1, 0], [9, 9]] 0 rfl
